/-
Verification of the collection-progress tracker core (`src/New/main.py`).

The Python source is shallowly embedded below.  Numeric ids and balances are
modelled as `Int`/`Nat`; Python strings as `String`; Python `set[str]` as
`Finset String`; Python `dict` caches as functions into `Option`; network
calls as explicit parameters (`Except UpstreamError _` for the fallible
upstream fetch, or a list of upstream pages for the cursor loop).  The mutable
module-level caches become explicit cache arguments threaded through and
returned by each embedded function, together with a `Bool` recording whether a
fetch was performed.
-/
import Mathlib

/-! ## Ownership Reconciler (`_fetch_owned_map` / `get_wallet_owned_by_collection`) -/

/-- A raw id as delivered by the upstream API: either a number or an opaque
string; the Python code normalizes both with `str(...)`. -/
inductive RawId where
  | num (n : Int)
  | str (s : String)
deriving DecidableEq

/-- Python's `str(...)` applied to a raw id. -/
def RawId.normalize : RawId → String
  | .num n => toString n
  | .str s => s

/-- One raw holding edge (`node` of the wallet `tokenAccounts` query):
`balance`, `reservedBalance` (either may be absent), the token id and its
collection id. -/
structure RawEdge where
  balance : Option Int
  reservedBalance : Option Int
  tokenId : RawId
  collectionId : RawId
deriving DecidableEq

/-- `int(n.get("balance") or 0) + int(n.get("reservedBalance") or 0)`. -/
def effective (e : RawEdge) : Int :=
  e.balance.getD 0 + e.reservedBalance.getD 0

/-- The empty `defaultdict(set)`. -/
def emptyOwned : String → Finset String := fun _ => ∅

/-- One iteration of the reconciling loop: if the record's effective balance
is positive, add the normalized token id to the set stored under the
normalized collection id. -/
def reconcileStep (owned : String → Finset String) (e : RawEdge) :
    String → Finset String :=
  if 0 < effective e then
    fun c => if c = e.collectionId.normalize then
               insert e.tokenId.normalize (owned c)
             else owned c
  else owned

/-- `get_wallet_owned_by_collection` (the same reconciliation loop appears in
`_fetch_owned_map`): fold the raw edges into a map from collection id to the
set of owned token ids. -/
def get_wallet_owned_by_collection (edges : List RawEdge) : String → Finset String :=
  edges.foldl reconcileStep emptyOwned

/-! ## Token-id sorting (`sort_token_ids`) -/

/-- Python `s.isdigit()`: non-empty and every character a digit. -/
def str_isdigit (s : String) : Bool :=
  !s.data.isEmpty && s.data.all Char.isDigit

/-- Python `int(s)` for a digit string: decimal value of the digits. -/
def digitVal (s : String) : Nat :=
  s.data.foldl (fun acc c => acc * 10 + (c.toNat - 48)) 0

/-- The two-tier comparison induced by the sort key
`(0, int(s)) if s.isdigit() else (1, s)`. -/
def tokenKeyLE (a b : String) : Bool :=
  match str_isdigit a, str_isdigit b with
  | true,  true  => decide (digitVal a ≤ digitVal b)
  | true,  false => true
  | false, true  => false
  | false, false => decide (a ≤ b)

/-- `sort_token_ids`: Python's stable `sorted` with the two-tier key,
modelled by the stable merge sort under the induced comparison. -/
def sort_token_ids (ids : List String) : List String :=
  ids.mergeSort tokenKeyLE

/-! ## Paginated Fetcher for a collection (`get_collection_token_ids`) -/

/-- One upstream response page: its edges (already projected to
`str(node["tokenId"])`) and the `hasNextPage` flag of its page info. -/
structure Page where
  edges : List String
  hasNextPage : Bool
deriving DecidableEq

/-- The accumulation loop of `get_collection_token_ids`: extend the
accumulator with the page's edges, then stop when the upstream reports no
further pages or the accumulator has reached `page_cap`; otherwise continue
with the next page.  `pages` lists the successive upstream responses. -/
def fetchLoop (page_cap : Nat) : List Page → List String → List String
  | [], out => out
  | p :: ps, out =>
    let out' := out ++ p.edges
    if p.hasNextPage = false ∨ page_cap ≤ out'.length then out'
    else fetchLoop page_cap ps out'

/-- `get_collection_token_ids cid page_cap`, with the upstream abstracted as
the list of pages it would return. -/
def get_collection_token_ids (pages : List Page) (page_cap : Nat := 20000) :
    List String :=
  fetchLoop page_cap pages []

/-- The concatenation of the edges of the first `k` upstream pages. -/
def pagesPref (pages : List Page) (k : Nat) : List String :=
  ((pages.take k).map Page.edges).flatten

/-! ## Token Universe Cache (`get_collection_token_ids_cached`) -/

/-- Error raised by `enjin_graphql` (transport error, non-success status, or
GraphQL error list), carrying the raw payload. -/
structure UpstreamError where
  payload : String
deriving DecidableEq

/-- One `TOKEN_CACHE` entry: `{"ids": [...], "ts": float}`. -/
structure TokenCacheEntry where
  ids : List String
  ts : Int
deriving DecidableEq

def TOKEN_CACHE_MAX_AGE : Int := 1800

/-- `get_collection_token_ids_cached`.  The upstream fetch that the Python
code performs inline is passed as `fetched` (its ids on success, the raised
error otherwise).  Returns the result, the token cache afterwards, and
whether a fetch was performed. -/
def get_collection_token_ids_cached (cache : String → Option TokenCacheEntry)
    (fetched : Except UpstreamError (List String)) (now : Int) (cid : String)
    (max_age_sec : Int) (force : Bool) :
    Except UpstreamError (List String) × (String → Option TokenCacheEntry) × Bool :=
  match cache cid with
  | some ent =>
    if force = false ∧ now - ent.ts < max_age_sec then
      (.ok ent.ids, cache, false)
    else
      match fetched with
      | .error err => (.error err, cache, true)
      | .ok ids =>
        let ids_sorted := sort_token_ids ids
        (.ok ids_sorted,
         fun c => if c = cid then some ⟨ids_sorted, now⟩ else cache c, true)
  | none =>
    match fetched with
    | .error err => (.error err, cache, true)
    | .ok ids =>
      let ids_sorted := sort_token_ids ids
      (.ok ids_sorted,
       fun c => if c = cid then some ⟨ids_sorted, now⟩ else cache c, true)

/-! ## Ownership Cache (`_owned_cache_get` / `_owned_cache_put` /
`refresh_owned_cache`) -/

/-- One `OWNED_CACHE` entry: `{"ts": float, "owned": dict[str, set[str]]}`. -/
structure OwnedEntry where
  ts : Int
  owned : String → Finset String

def OWNED_MAX_AGE : Int := 300

/-- `_owned_cache_get`: the cached map if the entry exists and is younger
than `OWNED_MAX_AGE`, else `none`. -/
def owned_cache_get (cache : Int → Option OwnedEntry) (now : Int) (uid : Int) :
    Option (String → Finset String) :=
  match cache uid with
  | some ent => if now - ent.ts < OWNED_MAX_AGE then some ent.owned else none
  | none => none

/-- `_owned_cache_put`. -/
def owned_cache_put (cache : Int → Option OwnedEntry) (now : Int) (uid : Int)
    (owned_map : String → Finset String) : Int → Option OwnedEntry :=
  fun u => if u = uid then some ⟨now, owned_map⟩ else cache u

/-- `refresh_owned_cache`: fetch the owned map (passed as `fetched`) and
store it; an upstream error propagates before the store happens. -/
def refresh_owned_cache (cache : Int → Option OwnedEntry)
    (fetched : Except UpstreamError (String → Finset String)) (now : Int)
    (uid : Int) :
    Except UpstreamError (String → Finset String) × (Int → Option OwnedEntry) :=
  match fetched with
  | .error err => (.error err, cache)
  | .ok owned_map => (.ok owned_map, owned_cache_put cache now uid owned_map)

/-- The ownership read performed by the progress views (`collections_cmd` and
the `owned:set:` / `setcol:` branches of `button_handler`): on a cache miss,
start a background refresh and use the empty set; on a hit, use the cached
map's entry for `cid` and start nothing.  Returns the set used and whether a
background refresh task was created. -/
def progress_owned_read (cache : Int → Option OwnedEntry) (now : Int)
    (uid : Int) (cid : String) : Finset String × Bool :=
  match owned_cache_get cache now uid with
  | none => (∅, true)
  | some m => (m cid, false)

/-- The ownership read performed by `mycollections`: on a cache miss, refresh
synchronously (errors surface to the user); on a hit, use the cached map and
start a background refresh.  Returns the map used, the cache afterwards,
whether a synchronous refresh ran, and whether a background refresh task was
created. -/
def mycollections_owned_read (cache : Int → Option OwnedEntry)
    (fetched : Except UpstreamError (String → Finset String)) (now : Int)
    (uid : Int) :
    Except UpstreamError
      ((String → Finset String) × (Int → Option OwnedEntry) × Bool × Bool) :=
  match owned_cache_get cache now uid with
  | none =>
    match refresh_owned_cache cache fetched now uid with
    | (.error err, _) => .error err
    | (.ok m, cache2) => .ok (m, cache2, true, false)
  | some m => .ok (m, cache, false, true)

/-! ## Progress filtering and pagination (`filter_ids`,
`render_progress_page`, the `prog:` pager of `button_handler`) -/

/-- `filter_ids`. -/
def filter_ids (ids : List String) (have_set : Finset String) (mode : String) :
    List String :=
  if mode = "missing" then ids.filter (fun t => decide (t ∉ have_set))
  else if mode = "owned" then ids.filter (fun t => decide (t ∈ have_set))
  else ids

def PROGRESS_PAGE_SIZE : Nat := 20

/-- `max(1, (total + P - 1) // P)`: the page count used by the renderers. -/
def total_pages_of (total page_size : Nat) : Nat :=
  max 1 ((total + page_size - 1) / page_size)

/-- Python list slicing `l[start:stop]` (step 1): negative indices count from
the end, then both bounds are clamped into `[0, len]`. -/
def pySlice {α : Type} (l : List α) (start stop : Int) : List α :=
  let fix : Int → Nat := fun i =>
    (min (max (if i < 0 then i + l.length else i) 0) (l.length : Int)).toNat
  (l.take (fix stop)).drop (fix start)

/-- The slice-selection core of `render_progress_page`: filter the universe
by the mode, clamp the stored page index only when it is at least the page
count, and take the Python slice `ids[page*P : min((page+1)*P, total)]`.
Returns the displayed slice and the page index after clamping. -/
def render_progress_page (all_ids : List String) (have_set : Finset String)
    (mode : String) (page : Int) (page_size : Nat) : List String × Int :=
  let ids := filter_ids all_ids have_set mode
  let total : Nat := ids.length
  let total_pages : Nat := total_pages_of total page_size
  let page' : Int := if (total_pages : Int) ≤ page
                     then max 0 ((total_pages : Int) - 1) else page
  let start : Int := page' * page_size
  let stop : Int := min ((page' + 1) * page_size) (total : Int)
  (pySlice ids start stop, page')

/-- The `prog:prev` / `prog:next` branches of `button_handler`: move the page
index by one, guarded so the move only happens inside `[0, lastPage]`. -/
def prog_page_action (page : Int) (forward : Bool) (filtered_total : Nat)
    (page_size : Nat) : Int :=
  if forward then
    if (page + 1) * page_size < (filtered_total : Int) then page + 1 else page
  else
    if 0 < page then page - 1 else page

/-! ## Collection selection (`setcol:` branch of `button_handler`) -/

/-- The per-user session record persisted in `STATE["users"]`. -/
structure Session where
  address : Option String
  collection : Option String
  last_view : Option String
deriving DecidableEq

/-- The `context.user_data["progress"]` view state. -/
structure ProgressState where
  cid : String
  name : String
  ids : List String
  have_set : Finset String
  page : Int
  mode : String
  from_find : Bool
deriving DecidableEq

/-- The user-facing outcome of a collection selection. -/
inductive SelectNotice where
  | notLinked
  | couldNotFetch
  | noTokens
  | progressShown
deriving DecidableEq

/-- Everything a collection selection touches: the session afterwards, the
progress view state afterwards, the token cache afterwards, whether a token
universe fetch was performed, whether an ownership background refresh was
started, and the notice shown. -/
structure SelectResult where
  session : Session
  progress : Option ProgressState
  tcache : String → Option TokenCacheEntry
  universeFetched : Bool
  ownedBgRefresh : Bool
  notice : SelectNotice

/-- The `setcol:` branch of `button_handler` (the spec's
`selectFromSearch`): store the selected collection in the session, then — if
no wallet is linked — announce and stop; otherwise read the token universe
through the cache, bail out on error or an empty universe, read the ownership
set (`progress_owned_read`), and enter the progress view. -/
def button_handler_setcol (sess : Session) (prog : Option ProgressState)
    (tcache : String → Option TokenCacheEntry)
    (ocache : Int → Option OwnedEntry)
    (fetched : Except UpstreamError (List String)) (now : Int) (uid : Int)
    (cid label : String) : SelectResult :=
  let sess1 : Session := { sess with collection := some cid }
  match sess.address with
  | none =>
    { session := sess1, progress := prog, tcache := tcache,
      universeFetched := false, ownedBgRefresh := false,
      notice := .notLinked }
  | some _ =>
    match get_collection_token_ids_cached tcache fetched now cid 1800 false with
    | (.error _, tcache2, fperf) =>
      { session := sess1, progress := prog, tcache := tcache2,
        universeFetched := fperf, ownedBgRefresh := false,
        notice := .couldNotFetch }
    | (.ok ids_sorted, tcache2, fperf) =>
      if ids_sorted.isEmpty then
        { session := sess1, progress := prog, tcache := tcache2,
          universeFetched := fperf, ownedBgRefresh := false,
          notice := .noTokens }
      else
        let hb := progress_owned_read ocache now uid cid
        { session := { sess1 with last_view := some "progress" },
          progress := some ⟨cid, label, ids_sorted, hb.1, 0, "all", true⟩,
          tcache := tcache2, universeFetched := fperf,
          ownedBgRefresh := hb.2, notice := .progressShown }

/-! ## Theorems -/

/-- Membership in the reconciling fold: a token id is in the set under `cid`
iff it was there initially or some edge with positive effective balance
normalizes to `(cid, tid)`. -/
lemma mem_foldl_reconcile (edges : List RawEdge) (init : String → Finset String)
    (cid tid : String) :
    tid ∈ (edges.foldl reconcileStep init) cid ↔
      tid ∈ init cid ∨ ∃ e ∈ edges, 0 < effective e ∧
        e.collectionId.normalize = cid ∧ e.tokenId.normalize = tid := by
  induction edges generalizing init with
  | nil => simp
  | cons e es ih =>
    rw [List.foldl_cons, ih]
    have happ : reconcileStep init e cid =
        if 0 < effective e ∧ cid = e.collectionId.normalize
        then insert e.tokenId.normalize (init cid) else init cid := by
      unfold reconcileStep
      by_cases hb : 0 < effective e <;>
        by_cases hc : cid = e.collectionId.normalize <;>
        simp [hb, hc]
    have hstep : tid ∈ reconcileStep init e cid ↔
        tid ∈ init cid ∨ (0 < effective e ∧
          e.collectionId.normalize = cid ∧ e.tokenId.normalize = tid) := by
      rw [happ]
      by_cases hbc : 0 < effective e ∧ cid = e.collectionId.normalize
      · rw [if_pos hbc, Finset.mem_insert]
        constructor
        · rintro (h | h)
          · exact Or.inr ⟨hbc.1, hbc.2.symm, h.symm⟩
          · exact Or.inl h
        · rintro (h | ⟨_, _, h⟩)
          · exact Or.inr h
          · exact Or.inl h.symm
      · rw [if_neg hbc]
        constructor
        · exact Or.inl
        · rintro (h | ⟨hb', hc', _⟩)
          · exact h
          · exact absurd ⟨hb', hc'.symm⟩ hbc
    rw [hstep]
    simp only [List.mem_cons]
    constructor
    · rintro (⟨h | h⟩ | ⟨e', he', h⟩)
      · exact Or.inl h
      · exact Or.inr ⟨e, Or.inl rfl, h⟩
      · exact Or.inr ⟨e', Or.inr he', h⟩
    · rintro (h | ⟨e', (rfl | he'), h⟩)
      · exact Or.inl (Or.inl h)
      · exact Or.inl (Or.inr h)
      · exact Or.inr ⟨e', he', h⟩

/-- C1: the Ownership Reconciler includes a token id (under its
string-normalized collection id) iff some raw edge for that token has
`balance + reservedBalance > 0` (absent fields read as zero), and permuting
the raw edge list leaves the resulting ownership map unchanged. -/
theorem C1_reconciler_membership_and_perm (edges edges' : List RawEdge)
    (cid tid : String) (hperm : edges.Perm edges') :
    (tid ∈ get_wallet_owned_by_collection edges cid ↔
      ∃ e ∈ edges, 0 < effective e ∧
        e.collectionId.normalize = cid ∧ e.tokenId.normalize = tid) ∧
    get_wallet_owned_by_collection edges = get_wallet_owned_by_collection edges' := by
  constructor
  · rw [get_wallet_owned_by_collection, mem_foldl_reconcile]
    simp [emptyOwned]
  · funext c
    ext t
    rw [get_wallet_owned_by_collection, get_wallet_owned_by_collection,
        mem_foldl_reconcile, mem_foldl_reconcile]
    constructor
    · rintro (h | ⟨e, he, h⟩)
      · exact Or.inl h
      · exact Or.inr ⟨e, hperm.mem_iff.mp he, h⟩
    · rintro (h | ⟨e, he, h⟩)
      · exact Or.inl h
      · exact Or.inr ⟨e, hperm.mem_iff.mpr he, h⟩

/-- A concrete holding edge: balance 1, reserved absent, token 7 of
collection 3. -/
def edgeA : RawEdge := ⟨some 1, none, .str "7", .str "3"⟩

/-- A concrete holding edge: balance 0, reserved 0, token 9 of collection 3. -/
def edgeB : RawEdge := ⟨some 0, some 0, .str "9", .str "3"⟩

theorem C1_reconciler_membership_and_perm_witness :
    (("7" : String) ∈ get_wallet_owned_by_collection [edgeA, edgeB] "3" ↔
      ∃ e ∈ [edgeA, edgeB], 0 < effective e ∧
        e.collectionId.normalize = "3" ∧ e.tokenId.normalize = "7") ∧
    get_wallet_owned_by_collection [edgeA, edgeB] =
      get_wallet_owned_by_collection [edgeB, edgeA] :=
  C1_reconciler_membership_and_perm [edgeA, edgeB] [edgeB, edgeA] "3" "7"
    (List.Perm.swap edgeB edgeA [])

/-- C7: the "missing" filter is exactly the universe minus the ownership
set, the "owned" filter is exactly the universe intersected with the
ownership set, and consequently the two split the universe: their union is
the universe as a set and they are disjoint, for every universe list and
ownership set. -/
theorem C7_filter_union_disjoint (ids : List String) (have_set : Finset String) :
    (filter_ids ids have_set "missing").toFinset = ids.toFinset \ have_set ∧
    (filter_ids ids have_set "owned").toFinset = ids.toFinset ∩ have_set ∧
    (filter_ids ids have_set "missing").toFinset ∪
      (filter_ids ids have_set "owned").toFinset = ids.toFinset ∧
    Disjoint ((filter_ids ids have_set "missing").toFinset)
      ((filter_ids ids have_set "owned").toFinset) := by
  have hm : filter_ids ids have_set "missing" =
      ids.filter (fun t => decide (t ∉ have_set)) := rfl
  have ho : filter_ids ids have_set "owned" =
      ids.filter (fun t => decide (t ∈ have_set)) := rfl
  have hmiss : (filter_ids ids have_set "missing").toFinset =
      ids.toFinset \ have_set := by
    ext t
    rw [hm]
    simp only [List.mem_toFinset, List.mem_filter, decide_eq_true_eq,
      Finset.mem_sdiff]
  have hown : (filter_ids ids have_set "owned").toFinset =
      ids.toFinset ∩ have_set := by
    ext t
    rw [ho]
    simp only [List.mem_toFinset, List.mem_filter, decide_eq_true_eq,
      Finset.mem_inter]
  refine ⟨hmiss, hown, ?_, ?_⟩
  · rw [hmiss, hown]
    ext t
    simp only [Finset.mem_union, Finset.mem_sdiff, Finset.mem_inter,
      List.mem_toFinset]
    by_cases h : t ∈ have_set <;> simp [h]
  · rw [hmiss, hown, Finset.disjoint_left]
    intro t htm hto
    rw [Finset.mem_sdiff] at htm
    rw [Finset.mem_inter] at hto
    exact htm.2 hto.2

/-- C10: `filter_ids` returns a subsequence of its input for every mode, so
the filtered progress views keep the universe's relative order with no
reordering, insertion or duplication. -/
theorem C10_filter_is_subsequence (ids : List String) (have_set : Finset String)
    (mode : String) : (filter_ids ids have_set mode).Sublist ids := by
  unfold filter_ids
  split
  · exact List.filter_sublist ids
  · split
    · exact List.filter_sublist ids
    · exact List.Sublist.refl ids

/-- The two-tier comparison is transitive. -/
lemma tokenKeyLE_trans : ∀ a b c : String, tokenKeyLE a b = true →
    tokenKeyLE b c = true → tokenKeyLE a c = true := by
  intro a b c hab hbc
  cases ha : str_isdigit a <;> cases hb : str_isdigit b <;>
    cases hc : str_isdigit c <;> simp [tokenKeyLE, ha, hb, hc] at *
  · exact le_trans hab hbc
  · exact le_trans hab hbc

/-- The two-tier comparison is total. -/
lemma tokenKeyLE_total : ∀ a b : String, (tokenKeyLE a b || tokenKeyLE b a) = true := by
  intro a b
  cases ha : str_isdigit a <;> cases hb : str_isdigit b <;>
    simp [tokenKeyLE, ha, hb]
  · simpa using le_total a b
  · exact Nat.le_total _ _

/-- C8: token-id sorting is idempotent, and in every sorted output numeric
ids precede non-numeric ids, numeric ids are in ascending numeric order, and
non-numeric ids are in lexicographic order. -/
theorem C8_sort_idempotent_two_tier (L : List String) :
    sort_token_ids (sort_token_ids L) = sort_token_ids L ∧
    (sort_token_ids L).Pairwise (fun a b =>
      (str_isdigit b = true → str_isdigit a = true) ∧
      (str_isdigit a = true → str_isdigit b = true → digitVal a ≤ digitVal b) ∧
      (str_isdigit a = false → str_isdigit b = false → a ≤ b)) := by
  have hsorted : (sort_token_ids L).Pairwise (fun a b => tokenKeyLE a b = true) :=
    List.sorted_mergeSort tokenKeyLE_trans tokenKeyLE_total L
  constructor
  · exact List.mergeSort_of_sorted hsorted
  · refine hsorted.imp ?_
    intro a b hab
    refine ⟨?_, ?_, ?_⟩
    · intro hb
      cases ha : str_isdigit a
      · simp [tokenKeyLE, ha, hb] at hab
      · rfl
    · intro ha hb
      simp only [tokenKeyLE, ha, hb, decide_eq_true_eq] at hab
      exact hab
    · intro ha hb
      simp only [tokenKeyLE, ha, hb, decide_eq_true_eq] at hab
      exact hab

/-- C3: when an entry exists, `force` is false, and `now - capturedAt` is
below `max_age_sec`, the cached get returns exactly the cached id list, the
cache (hence the entry's capture timestamp) is unchanged and no fetch is
performed; and with `force = true` a fetch is performed regardless of the
entry's age, and on success the entry stored for `cid` carries capture
timestamp `now`. -/
theorem C3_token_cache_freshness_and_force
    (cache : String → Option TokenCacheEntry)
    (fetched : Except UpstreamError (List String)) (now : Int) (cid : String)
    (max_age_sec : Int) (ent : TokenCacheEntry) (ids : List String) :
    (cache cid = some ent → now - ent.ts < max_age_sec →
      get_collection_token_ids_cached cache fetched now cid max_age_sec false =
        (.ok ent.ids, cache, false)) ∧
    ((get_collection_token_ids_cached cache fetched now cid max_age_sec true).2.2
        = true) ∧
    (fetched = .ok ids →
      (get_collection_token_ids_cached cache fetched now cid max_age_sec true).2.1
          cid = some ⟨sort_token_ids ids, now⟩ ∧
      (get_collection_token_ids_cached cache fetched now cid max_age_sec true).1 =
        .ok (sort_token_ids ids)) := by
  refine ⟨?_, ?_, ?_⟩
  · intro hent hfresh
    unfold get_collection_token_ids_cached
    rw [hent]
    simp [hfresh]
  · unfold get_collection_token_ids_cached
    cases hc : cache cid with
    | none => cases fetched <;> rfl
    | some ent' => cases fetched <;> simp
  · intro hok
    subst hok
    unfold get_collection_token_ids_cached
    cases hc : cache cid with
    | none => simp
    | some ent' => simp

theorem C3_token_cache_freshness_and_force_witness :
    (get_collection_token_ids_cached (fun _ => some ⟨["1"], 0⟩) (.ok ["2"]) 5
        "9" 1800 false = (.ok ["1"], (fun _ => some ⟨["1"], 0⟩), false)) ∧
    ((get_collection_token_ids_cached (fun _ => some ⟨["1"], 0⟩) (.ok ["2"]) 5
        "9" 1800 true).2.2 = true) ∧
    ((get_collection_token_ids_cached (fun _ => some ⟨["1"], 0⟩) (.ok ["2"]) 5
        "9" 1800 true).2.1 "9" = some ⟨sort_token_ids ["2"], 5⟩) ∧
    ((get_collection_token_ids_cached (fun _ => some ⟨["1"], 0⟩) (.ok ["2"]) 5
        "9" 1800 true).1 = .ok (sort_token_ids ["2"])) := by
  have h := C3_token_cache_freshness_and_force (fun _ => some ⟨["1"], 0⟩)
    (.ok ["2"]) 5 "9" 1800 ⟨["1"], 0⟩ ["2"]
  exact ⟨h.1 rfl (by decide), h.2.1, (h.2.2 rfl).1, (h.2.2 rfl).2⟩

/-- C4: a failing upstream fetch propagates its error and leaves the prior
cache entries exactly as they were: whenever the token-universe cached get
actually performs its fetch against a failing upstream, it returns the error
with the token cache unchanged, and an ownership refresh against a failing
upstream returns the error with the ownership cache unchanged. -/
theorem C4_fetch_error_leaves_caches_intact
    (tcache : String → Option TokenCacheEntry)
    (ocache : Int → Option OwnedEntry) (err : UpstreamError)
    (now now2 : Int) (cid : String) (uid : Int) (max_age_sec : Int)
    (force : Bool) :
    ((get_collection_token_ids_cached tcache (.error err) now cid max_age_sec
        force).2.2 = true →
      get_collection_token_ids_cached tcache (.error err) now cid max_age_sec
        force = (.error err, tcache, true)) ∧
    refresh_owned_cache ocache (.error err) now2 uid = (.error err, ocache) := by
  constructor
  · intro hperf
    unfold get_collection_token_ids_cached at hperf ⊢
    cases hc : tcache cid with
    | none => rfl
    | some ent =>
      by_cases hfresh : force = false ∧ now - ent.ts < max_age_sec
      · simp [hc, hfresh] at hperf
      · simp [hfresh]
  · rfl

theorem C4_fetch_error_leaves_caches_intact_witness :
    get_collection_token_ids_cached (fun _ => none) (.error ⟨"boom"⟩) 0 "9"
        1800 false = (.error ⟨"boom"⟩, (fun _ => none), true) ∧
    refresh_owned_cache (fun _ => none) (.error ⟨"boom"⟩) 0 1 =
      (.error ⟨"boom"⟩, (fun _ => none)) := by
  have h := C4_fetch_error_leaves_caches_intact (fun _ => none) (fun _ => none)
    ⟨"boom"⟩ 0 0 "9" 1 1800 false
  exact ⟨h.1 rfl, h.2⟩

/-- C6 counterexample: with no cached ownership entry, the progress views
(`collections_cmd` and the collection-select handlers) do not refresh
synchronously — they start only a background refresh and render with the
empty set — even when the wallet's reconciled ownership map is non-empty.
This contradicts the claimed read policy at a concrete state. -/
theorem C6_stale_while_revalidate_counterexample :
    owned_cache_get (fun _ => none) 0 1 = none ∧
    (progress_owned_read (fun _ => none) 0 1 "3").1 = ∅ ∧
    (progress_owned_read (fun _ => none) 0 1 "3").2 = true ∧
    get_wallet_owned_by_collection [edgeA] "3" ≠ ∅ := by
  refine ⟨rfl, rfl, rfl, ?_⟩
  intro h
  have h7 : ("7" : String) ∈ get_wallet_owned_by_collection [edgeA] "3" := by
    decide
  rw [h] at h7
  exact absurd h7 (Finset.not_mem_empty _)

/-- C6 (amended): only `mycollections` follows stale-while-revalidate — on a
hit it returns the cached map synchronously and starts a background refresh,
and on a miss it refreshes synchronously before rendering.  The progress
views (`collections_cmd` and the collection-select handlers) instead render
immediately: on a hit they use the cached map's entry with no refresh of any
kind, and on a miss they start only a background refresh and render with an
empty ownership set. -/
theorem C6_read_policies_amended (cache : Int → Option OwnedEntry)
    (fetched : Except UpstreamError (String → Finset String)) (now : Int)
    (uid : Int) (cid : String) (m om : String → Finset String) :
    (owned_cache_get cache now uid = some m →
      mycollections_owned_read cache fetched now uid = .ok (m, cache, false, true) ∧
      progress_owned_read cache now uid cid = (m cid, false)) ∧
    (owned_cache_get cache now uid = none →
      progress_owned_read cache now uid cid = (∅, true) ∧
      (fetched = .ok om →
        mycollections_owned_read cache fetched now uid =
          .ok (om, owned_cache_put cache now uid om, true, false))) := by
  constructor
  · intro hhit
    constructor
    · unfold mycollections_owned_read
      rw [hhit]
    · unfold progress_owned_read
      rw [hhit]
  · intro hmiss
    constructor
    · unfold progress_owned_read
      rw [hmiss]
    · intro hok
      subst hok
      unfold mycollections_owned_read
      rw [hmiss]
      rfl

theorem C6_read_policies_amended_witness :
    (mycollections_owned_read (fun _ => some ⟨0, emptyOwned⟩)
        (.ok emptyOwned) 0 1 =
      .ok (emptyOwned, (fun _ => some ⟨0, emptyOwned⟩), false, true)) ∧
    (progress_owned_read (fun _ => some ⟨0, emptyOwned⟩) 0 1 "3" =
      (emptyOwned "3", false)) ∧
    (progress_owned_read (fun _ => none) 0 1 "3" = (∅, true)) ∧
    (mycollections_owned_read (fun _ => none) (.ok emptyOwned) 0 1 =
      .ok (emptyOwned, owned_cache_put (fun _ => none) 0 1 emptyOwned,
        true, false)) := by
  have hhit := (C6_read_policies_amended (fun _ => some ⟨0, emptyOwned⟩)
    (.ok emptyOwned) 0 1 "3" emptyOwned emptyOwned).1 rfl
  have hmiss := (C6_read_policies_amended (fun _ => none)
    (.ok emptyOwned) 0 1 "3" emptyOwned emptyOwned).2 rfl
  exact ⟨hhit.1, hhit.2, hmiss.1, hmiss.2 rfl⟩

/-- C5 counterexample: a user with no linked wallet selecting collection
`"42"` from search results does have a session field modified by the action —
the selected-collection field is written (and persisted) before the wallet
check, changing it from `none` to `some "42"`. -/
theorem C5_select_unlinked_counterexample :
    (Session.collection ⟨none, none, none⟩ = none) ∧
    (button_handler_setcol ⟨none, none, none⟩ none (fun _ => none)
        (fun _ => none) (.ok []) 0 1 "42" "Label").session.collection =
      some "42" := by
  exact ⟨rfl, rfl⟩

/-- C5 (amended): when no wallet is linked, a collection selection from
search results leaves the navigation state unchanged (the progress view and
the session's last-view pointer are untouched), shows the not-linked notice,
and performs no token-universe fetch and no ownership refresh; however, the
session's selected-collection field is set to the chosen id before the
wallet check (and the external name resolution also runs before it). -/
theorem C5_select_unlinked_amended (sess : Session)
    (prog : Option ProgressState) (tcache : String → Option TokenCacheEntry)
    (ocache : Int → Option OwnedEntry)
    (fetched : Except UpstreamError (List String)) (now : Int) (uid : Int)
    (cid label : String) (hnolink : sess.address = none) :
    button_handler_setcol sess prog tcache ocache fetched now uid cid label =
      { session := { sess with collection := some cid }, progress := prog,
        tcache := tcache, universeFetched := false, ownedBgRefresh := false,
        notice := .notLinked } := by
  unfold button_handler_setcol
  rw [hnolink]

theorem C5_select_unlinked_amended_witness :
    button_handler_setcol ⟨none, some "5", some "find"⟩ none (fun _ => none)
        (fun _ => none) (.ok ["1"]) 0 1 "42" "Label" =
      { session := ⟨none, some "42", some "find"⟩, progress := none,
        tcache := (fun _ => none), universeFetched := false,
        ownedBgRefresh := false, notice := .notLinked } :=
  C5_select_unlinked_amended ⟨none, some "5", some "find"⟩ none (fun _ => none)
    (fun _ => none) (.ok ["1"]) 0 1 "42" "Label" rfl

/-- `total` never exceeds `total_pages * page_size`. -/
lemma le_total_pages_mul (total P : Nat) (hP : 0 < P) :
    total ≤ total_pages_of total P * P := by
  rcases Nat.eq_zero_or_pos total with h0 | hpos
  · simp [h0]
  · unfold total_pages_of
    have hsplit : total + P - 1 = (total - 1) + P := by omega
    rw [hsplit, Nat.add_div_right _ hP]
    have hmax : max 1 ((total - 1) / P + 1) = (total - 1) / P + 1 :=
      max_eq_right (Nat.succ_le_succ (Nat.zero_le _))
    rw [hmax]
    have hlt : (total - 1) / P < (total - 1) / P + 1 := Nat.lt_succ_self _
    have hmul := (Nat.div_lt_iff_lt_mul hP).mp hlt
    omega

/-- C9 counterexample: a stored page index below the range is not clamped:
with universe `["1","2","3","4"]` and page size 2, the page rendered at
stored index `-1` is empty, while the page rendered at the nearest boundary
index 0 is `["1","2"]`. -/
theorem C9_pagination_clamp_counterexample :
    (render_progress_page ["1", "2", "3", "4"] ∅ "all" (-1) 2).1 = [] ∧
    (render_progress_page ["1", "2", "3", "4"] ∅ "all" 0 2).1 = ["1", "2"] ∧
    (render_progress_page ["1", "2", "3", "4"] ∅ "all" (-1) 2).1 ≠
      (render_progress_page ["1", "2", "3", "4"] ∅ "all" 0 2).1 := by
  decide

/-- C9 (amended): the page action moves the index by one and stays inside
`[0, lastPage]` with no-ops at both boundaries, and render-time clamping
applies only above the range — a stored index at or above the page count
renders exactly the last page, while a below-range index is not clamped. -/
theorem C9_pagination_clamp_amended (ids : List String) (hs : Finset String)
    (mode : String) (P : Nat) (page : Int) (hP : 0 < P) :
    (0 < page →
      prog_page_action page false (filter_ids ids hs mode).length P = page - 1) ∧
    (prog_page_action 0 false (filter_ids ids hs mode).length P = 0) ∧
    ((page + 1) * P < ((filter_ids ids hs mode).length : Int) →
      prog_page_action page true (filter_ids ids hs mode).length P = page + 1) ∧
    (prog_page_action
        ((total_pages_of (filter_ids ids hs mode).length P : Int) - 1) true
        (filter_ids ids hs mode).length P =
      (total_pages_of (filter_ids ids hs mode).length P : Int) - 1) ∧
    (∀ forward : Bool, 0 ≤ page →
      page ≤ (total_pages_of (filter_ids ids hs mode).length P : Int) - 1 →
      0 ≤ prog_page_action page forward (filter_ids ids hs mode).length P ∧
      prog_page_action page forward (filter_ids ids hs mode).length P ≤
        (total_pages_of (filter_ids ids hs mode).length P : Int) - 1) ∧
    ((total_pages_of (filter_ids ids hs mode).length P : Int) ≤ page →
      render_progress_page ids hs mode page P =
        render_progress_page ids hs mode
          ((total_pages_of (filter_ids ids hs mode).length P : Int) - 1) P) := by
  have hcapN := le_total_pages_mul (filter_ids ids hs mode).length P hP
  have hcap : ((filter_ids ids hs mode).length : Int) ≤
      (total_pages_of (filter_ids ids hs mode).length P : Int) * P := by
    exact_mod_cast hcapN
  have hPc : (0 : Int) ≤ P := by positivity
  refine ⟨?_, ?_, ?_, ?_, ?_, ?_⟩
  · intro h
    simp [prog_page_action, h]
  · simp [prog_page_action]
  · intro h
    simp [prog_page_action, h]
  · have hcond : ¬ ((total_pages_of (filter_ids ids hs mode).length P : Int) *
        (P : Int) < ((filter_ids ids hs mode).length : Int)) := not_lt.mpr hcap
    simp only [prog_page_action, if_true]
    rw [sub_add_cancel, if_neg hcond]
  · intro forward h0 hle
    cases forward with
    | false =>
      by_cases h : 0 < page
      · simp only [prog_page_action, Bool.false_eq_true, if_false, if_pos h]
        omega
      · simp only [prog_page_action, Bool.false_eq_true, if_false, if_neg h]
        exact ⟨h0, hle⟩
    | true =>
      by_cases h : (page + 1) * P < ((filter_ids ids hs mode).length : Int)
      · simp only [prog_page_action, if_true, if_pos h]
        have h1 : (page + 1) * (P : Int) <
            (total_pages_of (filter_ids ids hs mode).length P : Int) * P :=
          lt_of_lt_of_le h hcap
        have h2 : page + 1 <
            (total_pages_of (filter_ids ids hs mode).length P : Int) := by
          rcases lt_or_eq_of_le hPc with hPpos | hPzero
          · exact lt_of_mul_lt_mul_right h1 hPc
          · exfalso
            rw [← hPzero] at h1
            simp at h1
        constructor
        · omega
        · omega
      · simp only [prog_page_action, if_true, if_neg h]
        exact ⟨h0, hle⟩
  · intro hhi
    have htp1 : (1 : Nat) ≤ total_pages_of (filter_ids ids hs mode).length P :=
      le_max_left 1 _
    have hne : ¬ ((total_pages_of (filter_ids ids hs mode).length P : Int) ≤
        (total_pages_of (filter_ids ids hs mode).length P : Int) - 1) := by
      omega
    have hmax : max 0 ((total_pages_of (filter_ids ids hs mode).length P : Int)
        - 1) = (total_pages_of (filter_ids ids hs mode).length P : Int) - 1 := by
      omega
    simp only [render_progress_page, if_pos hhi, if_neg hne, hmax]

theorem C9_pagination_clamp_amended_witness :
    prog_page_action 5 false (filter_ids ["1", "2", "3"] ∅ "all").length 2 = 4 ∧
    prog_page_action 0 true (filter_ids ["1", "2", "3"] ∅ "all").length 2 = 1 ∧
    (0 ≤ prog_page_action 0 true (filter_ids ["1", "2", "3"] ∅ "all").length 2 ∧
      prog_page_action 0 true (filter_ids ["1", "2", "3"] ∅ "all").length 2 ≤
        (total_pages_of (filter_ids ["1", "2", "3"] ∅ "all").length 2 : Int) - 1) ∧
    render_progress_page ["1", "2", "3"] ∅ "all" 5 2 =
      render_progress_page ["1", "2", "3"] ∅ "all"
        ((total_pages_of (filter_ids ["1", "2", "3"] ∅ "all").length 2 : Int) - 1)
        2 := by
  have h5 := C9_pagination_clamp_amended ["1", "2", "3"] ∅ "all" 2 5 (by decide)
  have h0 := C9_pagination_clamp_amended ["1", "2", "3"] ∅ "all" 2 0 (by decide)
  exact ⟨h5.1 (by decide), h0.2.2.1 (by decide),
    h0.2.2.2.2.1 true (by decide) (by decide), h5.2.2.2.2.2 (by decide)⟩

lemma pagesPref_zero (pages : List Page) : pagesPref pages 0 = [] := by
  simp [pagesPref]

lemma pagesPref_cons (p : Page) (ps : List Page) (k : Nat) :
    pagesPref (p :: ps) (k + 1) = p.edges ++ pagesPref ps k := by
  simp [pagesPref]

lemma pagesPref_one (p : Page) (ps : List Page) :
    pagesPref (p :: ps) 1 = p.edges := by
  simp [pagesPref]

/-- Full characterization of the accumulation loop: it returns the
concatenation of an initial run of `k` whole pages; if it stopped before
exhausting the upstream, the `k`-th page triggered the stop condition (no
further pages, or the accumulator reached the cap); and every earlier page
was followed because it had a next page and the accumulator was still below
the cap. -/
lemma fetchLoop_spec (page_cap : Nat) (pages : List Page) :
    ∀ out : List String,
      ∃ k, (k = 0 ↔ pages = []) ∧ k ≤ pages.length ∧
        fetchLoop page_cap pages out = out ++ pagesPref pages k ∧
        (k < pages.length →
          ∃ p, pages[k - 1]? = some p ∧
            (p.hasNextPage = false ∨
              page_cap ≤ (out ++ pagesPref pages k).length)) ∧
        (∀ j, 0 < j → j < k →
          ∃ p, pages[j - 1]? = some p ∧ p.hasNextPage = true ∧
            (out ++ pagesPref pages j).length < page_cap) := by
  induction pages with
  | nil =>
    intro out
    refine ⟨0, by simp, Nat.le_refl 0, by simp [fetchLoop, pagesPref_zero],
      ?_, ?_⟩
    · intro h
      simp at h
    · intro j hj hjk
      exfalso
      omega
  | cons p ps ih =>
    intro out
    by_cases hstop : p.hasNextPage = false ∨ page_cap ≤ (out ++ p.edges).length
    · refine ⟨1, by simp, by simp, ?_, ?_, ?_⟩
      · rw [pagesPref_one]
        simp only [fetchLoop]
        rw [if_pos hstop]
      · intro hlt
        refine ⟨p, by simp, ?_⟩
        rw [pagesPref_one]
        exact hstop
      · intro j hj hjk
        exfalso
        omega
    · have hstopOr : ¬ (p.hasNextPage = false ∨
          page_cap ≤ (out ++ p.edges).length) := hstop
      push_neg at hstop
      obtain ⟨hnext, hlen⟩ := hstop
      have hnext' : p.hasNextPage = true := by
        cases hb : p.hasNextPage
        · exact absurd hb hnext
        · rfl
      obtain ⟨k', hk0, hk'le, heq, hstopc, hmin⟩ := ih (out ++ p.edges)
      have hloop : fetchLoop page_cap (p :: ps) out =
          fetchLoop page_cap ps (out ++ p.edges) := by
        simp only [fetchLoop]
        rw [if_neg hstopOr]
      refine ⟨k' + 1, by simp, by simpa using Nat.succ_le_succ hk'le,
        ?_, ?_, ?_⟩
      · rw [hloop, heq, pagesPref_cons, List.append_assoc]
      · intro hklt
        have hklt' : k' < ps.length := by simpa using hklt
        obtain ⟨q, hq, hcond⟩ := hstopc hklt'
        have hk'pos : 0 < k' := by
          rcases Nat.eq_zero_or_pos k' with h0 | h
          · rw [hk0.mp h0] at hklt'
            simp at hklt'
          · exact h
        rcases k' with _ | k''
        · exact absurd hk'pos (lt_irrefl 0)
        · refine ⟨q, by simpa using hq, ?_⟩
          rw [pagesPref_cons p ps (k'' + 1), ← List.append_assoc]
          exact hcond
      · intro j hj hjk
        rcases j with _ | j'
        · exact absurd hj (lt_irrefl 0)
        · rcases j' with _ | j''
          · refine ⟨p, by simp, hnext', ?_⟩
            rw [pagesPref_one]
            exact hlen
          · have hjk' : j'' + 1 < k' := by omega
            obtain ⟨q, hq, hn, hl⟩ := hmin (j'' + 1) (Nat.succ_pos _) hjk'
            refine ⟨q, by simpa using hq, hn, ?_⟩
            rw [pagesPref_cons p ps (j'' + 1), ← List.append_assoc]
            exact hl

/-- Each iteration appends at most one page, so the loop overshoots the cap
by at most one page. -/
lemma fetchLoop_length_le (page_cap B : Nat) :
    ∀ (pages : List Page) (out : List String),
      (∀ p ∈ pages, p.edges.length ≤ B) → out.length ≤ page_cap →
      (fetchLoop page_cap pages out).length ≤ page_cap + B := by
  intro pages
  induction pages with
  | nil =>
    intro out hB hout
    simpa [fetchLoop] using le_trans hout (Nat.le_add_right _ _)
  | cons p ps ih =>
    intro out hB hout
    simp only [fetchLoop]
    split
    · have hp := hB p (List.mem_cons_self p ps)
      simp only [List.length_append]
      omega
    · rename_i h
      push_neg at h
      exact ih (out ++ p.edges)
        (fun q hq => hB q (List.mem_cons_of_mem p hq)) (le_of_lt h.2)

/-- A prefix-of-pages concatenation inherits duplicate-freedom from the full
upstream stream. -/
lemma pagesPref_nodup (pages : List Page) (k : Nat)
    (h : ((pages.map Page.edges).flatten).Nodup) : (pagesPref pages k).Nodup := by
  have hsplit : ((pages.map Page.edges).take k).flatten ++
      ((pages.map Page.edges).drop k).flatten = (pages.map Page.edges).flatten := by
    rw [← List.flatten_append, List.take_append_drop]
  have hsub : (pagesPref pages k).Sublist ((pages.map Page.edges).flatten) := by
    unfold pagesPref
    rw [List.map_take, ← hsplit]
    exact List.sublist_append_left _ _
  exact List.Nodup.sublist hsub h

/-- C2 counterexample: with page cap 2 and a single upstream page carrying
`["1", "1", "2"]`, the assembled (and then sorted and cached) token list has
length 3 > 2 — the cap is checked only after a whole page is appended — and
it keeps the upstream duplicate. -/
theorem C2_token_universe_counterexample :
    ¬ (sort_token_ids (get_collection_token_ids [⟨["1", "1", "2"], false⟩] 2)).Nodup ∧
    (sort_token_ids (get_collection_token_ids [⟨["1", "1", "2"], false⟩] 2)).length
      = 3 := by
  have hval : get_collection_token_ids [⟨["1", "1", "2"], false⟩] 2 =
      ["1", "1", "2"] := rfl
  have hperm : (sort_token_ids (get_collection_token_ids
      [⟨["1", "1", "2"], false⟩] 2)).Perm (["1", "1", "2"] : List String) := by
    rw [← hval]
    exact List.mergeSort_perm _ tokenKeyLE
  constructor
  · intro hnd
    have : (["1", "1", "2"] : List String).Nodup := hperm.nodup_iff.mp hnd
    revert this
    decide
  · rw [hperm.length_eq]
    rfl

/-- C2 (amended): the assembled token list is the concatenation of an
initial run of upstream pages — the loop stops exactly when a page reports
no next page or the accumulator has reached the page cap, the cap being
checked only after appending a whole page — so its length (and that of the
sorted list stored in the cache) is at most the page cap plus one page
(bounded by any per-page bound `B`), and it is duplicate-free provided the
upstream page stream as a whole is duplicate-free (the code never
deduplicates). -/
theorem C2_token_universe_amended (pages : List Page) (page_cap B : Nat)
    (hB : ∀ p ∈ pages, p.edges.length ≤ B) :
    (∃ k, k ≤ pages.length ∧
      get_collection_token_ids pages page_cap = pagesPref pages k ∧
      (k < pages.length →
        ∃ p, pages[k - 1]? = some p ∧
          (p.hasNextPage = false ∨
            page_cap ≤ (pagesPref pages k).length)) ∧
      (∀ j, 0 < j → j < k →
        ∃ p, pages[j - 1]? = some p ∧ p.hasNextPage = true ∧
          (pagesPref pages j).length < page_cap)) ∧
    (get_collection_token_ids pages page_cap).length ≤ page_cap + B ∧
    (sort_token_ids (get_collection_token_ids pages page_cap)).length ≤
      page_cap + B ∧
    (((pages.map Page.edges).flatten).Nodup →
      (get_collection_token_ids pages page_cap).Nodup ∧
      (sort_token_ids (get_collection_token_ids pages page_cap)).Nodup) := by
  obtain ⟨k, hk0, hkle, heq, hstopc, hmin⟩ := fetchLoop_spec page_cap pages []
  rw [List.nil_append] at heq
  have hget : get_collection_token_ids pages page_cap = pagesPref pages k := heq
  have hperm : (sort_token_ids (get_collection_token_ids pages page_cap)).Perm
      (get_collection_token_ids pages page_cap) :=
    List.mergeSort_perm _ tokenKeyLE
  have hlen : (get_collection_token_ids pages page_cap).length ≤ page_cap + B :=
    fetchLoop_length_le page_cap B pages [] hB (Nat.zero_le _)
  refine ⟨⟨k, hkle, hget, ?_, ?_⟩, hlen, ?_, ?_⟩
  · intro hlt
    obtain ⟨p, hp, hcond⟩ := hstopc hlt
    refine ⟨p, hp, ?_⟩
    simpa using hcond
  · intro j hj hjk
    obtain ⟨p, hp, hn, hl⟩ := hmin j hj hjk
    exact ⟨p, hp, hn, by simpa using hl⟩
  · rw [hperm.length_eq]
    exact hlen
  · intro hnd
    have h1 : (get_collection_token_ids pages page_cap).Nodup := by
      rw [hget]
      exact pagesPref_nodup pages k hnd
    exact ⟨h1, hperm.nodup_iff.mpr h1⟩

theorem C2_token_universe_amended_witness :
    (get_collection_token_ids [⟨["1", "2"], true⟩, ⟨["3"], false⟩] 10).length ≤
      10 + 2 ∧
    (get_collection_token_ids [⟨["1", "2"], true⟩, ⟨["3"], false⟩] 10).Nodup ∧
    (sort_token_ids (get_collection_token_ids
      [⟨["1", "2"], true⟩, ⟨["3"], false⟩] 10)).Nodup := by
  have h := C2_token_universe_amended [⟨["1", "2"], true⟩, ⟨["3"], false⟩] 10 2
    (by decide)
  exact ⟨h.2.1, (h.2.2.2 (by decide)).1, (h.2.2.2 (by decide)).2⟩
